import Mathlib

/-!
# Verification of the temperature-correlation pipeline

Shallow embedding of `TempCorrModel_03.04.2025_02_Github.py`, a single-pass
pipeline that aggregates per-case measurement rows, attaches per-case forehead
temperatures, and fits per-(metric, region) linear regressions.

Modelling conventions:
* pandas cell values coerced with `to_numeric(errors='coerce')` are `Option ℚ`;
  `none` stands for a missing (NaN) or non-finite cell, so the script's
  `isnull` and `isfinite` tests both become `Option.isNone` tests;
* float arithmetic is idealised as exact arithmetic (`ℚ` for the computable
  core, `ℝ` where the script takes square roots);
* `scipy.stats.t.ppf(0.975, dof)` is kept abstract as a parameter
  `tCrit : ℕ → ℝ` of the confidence-interval definitions;
* `scipy.stats.linregress` raises `ValueError` when all x-values are identical
  (and `len(x) > 1`); that raise condition is modelled by `linregressRaises`;
* `scipy.stats.pearsonr` returns NaN for constant input, which is modelled as
  `none`.
-/

namespace TempCorr

/-! ## Fixed configuration (script lines 49-74) -/

/-- `structure_groups` dict: group name to member regions, in source order. -/
def structure_groups : List (String × List String) :=
  [("Basal Ganglia", ["Caudate", "Putamen", "Pallidum"]),
   ("Limbic System", ["Hippocampus", "Amygdala"]),
   ("Relay Centers", ["Thalamus", "Brainstem"])]

/-- `metrics = ['FA', 'MD', 'T1', 'T2', 'T2s']`. -/
def metrics : List String := ["FA", "MD", "T1", "T2", "T2s"]

/-- `region_exclude = ['Accumbens']`. -/
def region_exclude : List String := ["Accumbens"]

/-- `temp_map` dict: metric to temperature-column name. -/
def temp_map : List (String × String) :=
  [("FA", "temp_DTI"), ("MD", "temp_DTI"), ("T1", "temp_T1"),
   ("T2", "temp_T2"), ("T2s", "temp_T2s")]

/-- Dictionary lookup `temp_map[metric]` (only ever used on the five
configured metrics, where the lookup succeeds). -/
def lookupTempCol (m : String) : String := (temp_map.lookup m).getD ""

/-! ## Data model -/

/-- One measurement row of a per-case result file, after the
`pd.to_numeric(..., errors='coerce')` step: `value = none` models a
missing/NaN (or non-finite) cell.  The source column `case` is called
`caseName` here. -/
structure Row where
  caseName : String
  metric : String
  region : String
  value : Option ℚ
deriving DecidableEq

/-- One row of the temperature spreadsheet `temp_df`: a `case` column and one
temperature column per metric family; `none` models an empty/NaN cell. -/
structure TempRow where
  caseName : String
  temp_DTI : Option ℚ
  temp_T1 : Option ℚ
  temp_T2 : Option ℚ
  temp_T2s : Option ℚ
deriving DecidableEq

/-- One case folder: `fileMain`/`fileT1` are the parsed contents of
`{case}_output.csv` / `{case}_output_correctT1.csv`, or `none` when the file
does not exist. -/
structure CaseFolder where
  name : String
  fileMain : Option (List Row)
  fileT1 : Option (List Row)
deriving DecidableEq

/-- A measurement row with the per-case temperature column attached
(`subset['temperature'] = temp_value[0]`). -/
structure AggRow extends Row where
  temperature : Option ℚ
deriving DecidableEq

/-! ## Ingestion (script lines 83-128) -/

/-- The `groupby(['case', 'metric', 'region'])` key of a row. -/
def rowKey (r : Row) : String × String × String := (r.caseName, r.metric, r.region)

/-- The distinct group keys of a table, in first-occurrence order. -/
def keysOf (rows : List Row) : List (String × String × String) := (rows.map rowKey).dedup

/-- Lexicographic order on group keys: pandas `groupby(..., sort=True)` sorts
the group keys in the output. -/
def keyLe (a b : String × String × String) : Bool :=
  decide (a.1 < b.1) ||
    (a.1 == b.1 && (decide (a.2.1 < b.2.1) ||
      (a.2.1 == b.2.1 && !(decide (b.2.2 < a.2.2)))))

/-- All rows of one group. -/
def groupRows (rows : List Row) (k : String × String × String) : List Row :=
  rows.filter (fun r => decide (rowKey r = k))

/-- `GroupBy.first()` on the `value` column: the first non-null value of the
group, in row order (`none` when every value of the group is null). -/
def groupFirstValue (rows : List Row) (k : String × String × String) : Option ℚ :=
  ((groupRows rows k).filterMap (fun r => r.value)).head?

/-- `df.groupby(['case', 'metric', 'region']).first().reset_index()`: one row
per distinct key (keys sorted), whose value is the group's first non-null
value. -/
def dedupFirst (rows : List Row) : List Row :=
  (List.insertionSort (fun a b => keyLe a b = true) (keysOf rows)).map
    (fun k => ⟨k.1, k.2.1, k.2.2, groupFirstValue rows k⟩)

/-- `df[~df['region'].isin(region_exclude)]`. -/
def excludeRegions (rows : List Row) : List Row :=
  rows.filter (fun r => !(region_exclude.contains r.region))

/-- Script lines 93-109: region exclusion and deduplication of the main file,
then replacement of its T1 rows by the corrected-T1 rows when a corrected-T1
file exists and parsed to a non-empty table (`if not df_t1.empty`). -/
def processMain (fileT1 : Option (List Row)) (mainRows : List Row) : List Row :=
  let df_main := dedupFirst (excludeRegions mainRows)
  let df_t1 := fileT1.getD []
  if df_t1.isEmpty then df_main
  else
    (df_main.filter (fun r => !(r.metric == "T1"))) ++
      dedupFirst ((excludeRegions df_t1).filter (fun r => r.metric == "T1"))

/-- `temp_row[col]` for the four temperature columns. -/
def colValue (t : TempRow) (col : String) : Option ℚ :=
  if col == "temp_DTI" then t.temp_DTI
  else if col == "temp_T1" then t.temp_T1
  else if col == "temp_T2" then t.temp_T2
  else if col == "temp_T2s" then t.temp_T2s
  else none

/-- `subset['temperature'] = tv`. -/
def attachTemp (tv : Option ℚ) (r : Row) : AggRow := { toRow := r, temperature := tv }

/-- Script lines 83-123, one iteration of the case loop: the list of per-metric
subsets this case appends to `all_data`.  A case without main file, or without
a matching row in the temperature table, appends nothing; otherwise one subset
per metric is appended (the `len(temp_value) == 0` guard never fires once
`temp_row` is non-empty, and the subset is appended even when it has zero rows
or a null temperature cell). -/
def processCase (temp_df : List TempRow) (f : CaseFolder) : List (List AggRow) :=
  match f.fileMain with
  | none => []
  | some mainRows =>
    let df_main := processMain f.fileT1 mainRows
    let temp_row := temp_df.filter (fun t => t.caseName == f.name)
    if temp_row.isEmpty then []
    else
      metrics.filterMap (fun m =>
        let subset := df_main.filter (fun r => r.metric == m)
        let temp_value := temp_row.map (fun t => colValue t (lookupTempCol m))
        match temp_value with
        | [] => none
        | tv :: _ => some (subset.map (attachTemp tv)))

/-- The `all_data` accumulator after the case loop: one entry per appended
per-metric subset. -/
def allData (cohort : List CaseFolder) (temp_df : List TempRow) : List (List AggRow) :=
  (cohort.map (processCase temp_df)).flatten

/-- `data = pd.concat(all_data)`: the aggregated long table. -/
def dataAgg (cohort : List CaseFolder) (temp_df : List TempRow) : List AggRow :=
  (allData cohort temp_df).flatten

/-- Script lines 125-126: `if not all_data: raise ValueError(...)` — the fatal
check tests emptiness of the accumulator *list*, not the row count. -/
def ingestAborts (cohort : List CaseFolder) (temp_df : List TempRow) : Bool :=
  (allData cohort temp_df).isEmpty

/-- A case the loop skips entirely: main file absent, or no matching row in
the temperature table. -/
def skippedCase (temp_df : List TempRow) (f : CaseFolder) : Bool :=
  f.fileMain.isNone || (temp_df.filter (fun t => t.caseName == f.name)).isEmpty

/-! ## Statistics stage (script lines 143-185) -/

/-- `data[(data['metric'] == metric) & (data['region'] == region)]`. -/
def seriesFor (data : List AggRow) (m reg : String) : List AggRow :=
  data.filter (fun r => r.metric == m && r.region == reg)

/-- `if len(df) < 2: continue` — the length guard. -/
def lenOK (rows : List AggRow) : Bool := decide (2 ≤ rows.length)

/-- Script line 157: `x.isnull().any() or y.isnull().any() or not
np.isfinite(y).all() or y.nunique() < 2`.  Under the `Option ℚ` value model a
non-finite value is also `none`, so the `isfinite` test coincides with the
null test; `nunique` counts distinct non-null values. -/
def skipCheck (rows : List AggRow) : Bool :=
  rows.any (fun r => r.temperature.isNone) ||
    rows.any (fun r => r.value.isNone) ||
    decide (((rows.filterMap (fun r => r.value)).dedup).length < 2)

/-- The data-quality guard passes. -/
def validCheck (rows : List AggRow) : Bool := !(skipCheck rows)

/-- The `(x, y) = (temperature, value)` pairs of a series; only used on series
that passed the null checks, so the `getD 0` defaults are never exercised in
any theorem's hypotheses. -/
def pairs (rows : List AggRow) : List (ℚ × ℚ) :=
  rows.map (fun r => (r.temperature.getD 0, r.value.getD 0))

/-- The x (temperature) column of a pair series. -/
def xvals (s : List (ℚ × ℚ)) : List ℚ := s.map Prod.fst

/-- The y (value) column of a pair series. -/
def yvals (s : List (ℚ × ℚ)) : List ℚ := s.map Prod.snd

/-- `np.mean` (exact). -/
def listMean (l : List ℚ) : ℚ := l.sum / (l.length : ℚ)

/-- `x_mean = np.mean(x)` (script line 167). -/
def x_mean (s : List (ℚ × ℚ)) : ℚ := listMean (xvals s)

/-- `np.mean(y)`. -/
def y_mean (s : List (ℚ × ℚ)) : ℚ := listMean (yvals s)

/-- `np.cov(x, y, bias=1)` entry `ssxm`: mean squared x-deviation. -/
def ssxm (s : List (ℚ × ℚ)) : ℚ := listMean ((xvals s).map (fun v => (v - x_mean s) ^ 2))

/-- `np.cov(x, y, bias=1)` entry `ssym`: mean squared y-deviation. -/
def ssym (s : List (ℚ × ℚ)) : ℚ := listMean ((yvals s).map (fun v => (v - y_mean s) ^ 2))

/-- `np.cov(x, y, bias=1)` entry `ssxym`: mean xy-codeviation. -/
def ssxym (s : List (ℚ × ℚ)) : ℚ :=
  listMean (s.map (fun p => (p.1 - x_mean s) * (p.2 - y_mean s)))

/-- `linregress`: `slope = ssxym / ssxm`. -/
def slope (s : List (ℚ × ℚ)) : ℚ := ssxym s / ssxm s

/-- `linregress`: `intercept = ymean - slope*xmean`. -/
def intercept (s : List (ℚ × ℚ)) : ℚ := y_mean s - slope s * x_mean s

/-- `(l == l[0]).all()` / `np.amax(l) == np.amin(l)`: every element equals the
first. -/
def allEqualB (l : List ℚ) : Bool :=
  match l with
  | [] => true
  | a :: t => t.all (fun b => b == a)

/-- `linregress` raises `ValueError("Cannot calculate a linear regression if
all x values are identical")` when `np.amax(x) == np.amin(x) and len(x) > 1`;
an unhandled raise aborts the whole script. -/
def linregressRaises (s : List (ℚ × ℚ)) : Bool :=
  allEqualB (xvals s) && decide (1 < s.length)

/-- `linregress`'s clamp of r: `if r > 1.0: r = 1.0 elif r < -1.0: r = -1.0`. -/
noncomputable def clipLin (v : ℝ) : ℝ := if 1 < v then 1 else if v < -1 then -1 else v

/-- `linregress`'s correlation coefficient `r_val`: `0.0` when `ssxm == 0.0 or
ssym == 0.0`, else the clamped `ssxym / sqrt(ssxm * ssym)`. -/
noncomputable def r_lin (s : List (ℚ × ℚ)) : ℝ :=
  if ssxm s = 0 ∨ ssym s = 0 then 0
  else clipLin ((ssxym s : ℝ) / Real.sqrt ((ssxm s : ℝ) * (ssym s : ℝ)))

/-- Script line 163: `r_squared = r_val ** 2`. -/
noncomputable def r_squared (s : List (ℚ × ℚ)) : ℝ := r_lin s ^ 2

/-- `np.sign`. -/
def sgn (v : ℚ) : ℚ := if 0 < v then 1 else if v < 0 then -1 else 0

/-- `Σ (x - x̄)(y - ȳ)`, the numerator `np.dot(xm, ym)` of `pearsonr`. -/
def dotProd (s : List (ℚ × ℚ)) : ℚ :=
  (s.map (fun p => (p.1 - x_mean s) * (p.2 - y_mean s))).sum

/-- `s_xx = np.sum((x - x_mean) ** 2)` (script line 169). -/
def s_xx (s : List (ℚ × ℚ)) : ℚ := ((xvals s).map (fun v => (v - x_mean s) ^ 2)).sum

/-- `Σ (y - ȳ)²`. -/
def s_yy (s : List (ℚ × ℚ)) : ℚ := ((yvals s).map (fun v => (v - y_mean s) ^ 2)).sum

/-- `pearsonr`'s `linalg.norm(xm)`. -/
noncomputable def normxm (s : List (ℚ × ℚ)) : ℝ := Real.sqrt ((s_xx s : ℝ))

/-- `pearsonr`'s `linalg.norm(ym)`. -/
noncomputable def normym (s : List (ℚ × ℚ)) : ℝ := Real.sqrt ((s_yy s : ℝ))

/-- `scipy.stats.pearsonr` statistic: raises for `n < 2` and returns NaN for a
constant input (both modelled as `none`); returns
`sign(x[1]-x[0]) * sign(y[1]-y[0])` when `n == 2`; otherwise the clamped
`dot(xm/normxm, ym/normym)` (written here, with exact arithmetic, as
`dot(xm, ym) / (normxm * normym)`). -/
noncomputable def pearson_r (s : List (ℚ × ℚ)) : Option ℝ :=
  if s.length < 2 then none
  else if allEqualB (xvals s) || allEqualB (yvals s) then none
  else if s.length = 2 then
    some ((sgn ((xvals s).getD 1 0 - (xvals s).getD 0 0) *
           sgn ((yvals s).getD 1 0 - (yvals s).getD 0 0) : ℚ) : ℝ)
  else
    some (max (min ((dotProd s : ℝ) / (normxm s * normym s)) 1) (-1))

/-- `n = len(x)` (script line 165). -/
def n_pts (s : List (ℚ × ℚ)) : ℕ := s.length

/-- `dof = n - 2` (script line 166; truncated subtraction is harmless since
every use is guarded by `len(df) >= 2`). -/
def dof (s : List (ℚ × ℚ)) : ℕ := s.length - 2

/-- Residual sum of squares `np.sum((y - (slope * x + intercept)) ** 2)`. -/
def rss (s : List (ℚ × ℚ)) : ℚ :=
  (s.map (fun p => (p.2 - (slope s * p.1 + intercept s)) ^ 2)).sum

/-- `se_y = np.sqrt(np.sum((y - (slope*x+intercept))**2) / dof)` (line 168). -/
noncomputable def se_y (s : List (ℚ × ℚ)) : ℝ := Real.sqrt ((rss s : ℝ) / (dof s : ℝ))

/-- `se_slope = se_y / np.sqrt(s_xx)` (line 170). -/
noncomputable def se_slope (s : List (ℚ × ℚ)) : ℝ := se_y s / Real.sqrt ((s_xx s : ℝ))

/-- `se_intercept = se_y * np.sqrt(1 / n + (x_mean ** 2 / s_xx))` (line 171). -/
noncomputable def se_intercept (s : List (ℚ × ℚ)) : ℝ :=
  se_y s * Real.sqrt (1 / (n_pts s : ℝ) + (x_mean s : ℝ) ^ 2 / (s_xx s : ℝ))

/-- `slope_ci = t_val * se_slope` (line 174); `tCrit` abstracts
`t.ppf(0.975, ·)`. -/
noncomputable def slope_ci (tCrit : ℕ → ℝ) (s : List (ℚ × ℚ)) : ℝ := tCrit (dof s) * se_slope s

/-- `intercept_ci = t_val * se_intercept` (line 175). -/
noncomputable def intercept_ci (tCrit : ℕ → ℝ) (s : List (ℚ × ℚ)) : ℝ := tCrit (dof s) * se_intercept s

/-- A `(metric, region)` series reaches `summary.append(...)` iff it passes the
length guard and the data-quality guard and `linregress` does not raise. -/
def summaryEmitted (rows : List AggRow) : Bool :=
  lenOK rows && validCheck rows && !(linregressRaises (pairs rows))

/-- A series that passes both guards but has identical temperatures everywhere:
it makes `linregress` raise, killing the run. -/
def seriesCrashes (rows : List AggRow) : Bool :=
  lenOK rows && validCheck rows && linregressRaises (pairs rows)

/-- The statistics/plot double loop hits a `linregress` raise somewhere. -/
def statsCrash (data : List AggRow) : Bool :=
  metrics.any (fun m =>
    structure_groups.any (fun g =>
      g.2.any (fun reg => seriesCrashes (seriesFor data m reg))))

/-- The run aborts: either the fatal zero-accumulator check fires, or some
series makes `linregress` raise. -/
def runAborts (cohort : List CaseFolder) (temp_df : List TempRow) : Bool :=
  ingestAborts cohort temp_df || statsCrash (dataAgg cohort temp_df)

/-! ## Spec-side regression formulas (spec section 4.2, stated independently
over ℝ, to be compared with the script's computation) -/

/-- Spec-side x column over ℝ. -/
noncomputable def specX (s : List (ℚ × ℚ)) : List ℝ := s.map (fun p => ((p.1 : ℚ) : ℝ))

/-- Spec-side y column over ℝ. -/
noncomputable def specY (s : List (ℚ × ℚ)) : List ℝ := s.map (fun p => ((p.2 : ℚ) : ℝ))

/-- Spec-side n. -/
noncomputable def specN (s : List (ℚ × ℚ)) : ℝ := (s.length : ℝ)

/-- Spec-side x̄. -/
noncomputable def specXbar (s : List (ℚ × ℚ)) : ℝ := (specX s).sum / specN s

/-- Spec-side ȳ. -/
noncomputable def specYbar (s : List (ℚ × ℚ)) : ℝ := (specY s).sum / specN s

/-- Spec-side `Σ(x−x̄)²`. -/
noncomputable def specSxx (s : List (ℚ × ℚ)) : ℝ := ((specX s).map (fun v => (v - specXbar s) ^ 2)).sum

/-- Spec-side `Σ(x−x̄)(y−ȳ)`. -/
noncomputable def specSxy (s : List (ℚ × ℚ)) : ℝ :=
  (s.map (fun p => ((p.1 : ℝ) - specXbar s) * ((p.2 : ℝ) - specYbar s))).sum

/-- Spec-side OLS slope. -/
noncomputable def specSlope (s : List (ℚ × ℚ)) : ℝ := specSxy s / specSxx s

/-- Spec-side OLS intercept. -/
noncomputable def specIntercept (s : List (ℚ × ℚ)) : ℝ := specYbar s - specSlope s * specXbar s

/-- Spec-side residual sum of squares of the OLS fit. -/
noncomputable def specRSS (s : List (ℚ × ℚ)) : ℝ :=
  (s.map (fun p => ((p.2 : ℝ) - (specSlope s * (p.1 : ℝ) + specIntercept s)) ^ 2)).sum

/-- Spec: "residual standard error computed over (n−2) degrees of freedom". -/
noncomputable def specResidSE (s : List (ℚ × ℚ)) : ℝ := Real.sqrt (specRSS s / (specN s - 2))

/-- Spec: "slope SE = residual SE / sqrt(Σ(x−x̄)²)". -/
noncomputable def specSlopeSE (s : List (ℚ × ℚ)) : ℝ := specResidSE s / Real.sqrt (specSxx s)

/-- Spec: "intercept SE = residual SE × sqrt(1/n + x̄²/Σ(x−x̄)²)". -/
noncomputable def specInterceptSE (s : List (ℚ × ℚ)) : ℝ :=
  specResidSE s * Real.sqrt (1 / specN s + specXbar s ^ 2 / specSxx s)

/-! ## Summary-record formatting (script lines 132-133 and 177-185)

`format_sci(val, precision)` is Python's `f"{val:.{precision}e}"`: scientific
notation with `precision` digits after the decimal point and a sign-and-two-
digit (or more) exponent.  It is embedded here for exact decimal values: the
script formats double-precision floats, which are rationals, and Python's
round-half-even tie-breaking on the decimal mantissa is reproduced by
`roundHalfEven`. -/

/-- `⌊log₁₀ n⌋` (0 for `n = 0`), by fuel recursion so that it evaluates inside
the kernel. -/
def natLog10Aux : ℕ → ℕ → ℕ
  | 0, _ => 0
  | fuel + 1, n => if n < 10 then 0 else natLog10Aux fuel (n / 10) + 1

/-- `⌊log₁₀ n⌋` for `n ≥ 1`. -/
def natLog10 (n : ℕ) : ℕ := natLog10Aux n n

/-- Round-half-even of the fraction `a / b` (`b ≠ 0`). -/
def roundHalfEvenFrac (a b : ℕ) : ℕ :=
  let n := a / b
  let r := a % b
  if b < 2 * r then n + 1
  else if 2 * r < b then n
  else if n % 2 = 0 then n else n + 1

/-- The decimal exponent of a nonzero rational `q = ±a/b`: the unique `e` with
`10^e ≤ |q| < 10^(e+1)`.  The candidate `e0 = ⌊log₁₀ a⌋ - ⌊log₁₀ b⌋` satisfies
`10^(e0-1) < |q| < 10^(e0+1)`, so one comparison settles it; the comparison
`10^e0 ≤ a/b` is carried out over ℕ. -/
def expFor (q : ℚ) : ℤ :=
  let a := q.num.natAbs
  let b := q.den
  let e0 : ℤ := (natLog10 a : ℤ) - (natLog10 b : ℤ)
  let ge : Bool :=
    if 0 ≤ e0 then decide (b * 10 ^ e0.toNat ≤ a) else decide (b ≤ a * 10 ^ (-e0).toNat)
  if ge then e0 else e0 - 1

/-- Mantissa digits (as a natural number with `prec + 1` decimal digits) and
exponent of a nonzero rational `q = ±a/b` at a given precision: the mantissa is
`|q| * 10^(prec - e)`, written as the natural fraction
`(a * 10^max(prec-e,0)) / (b * 10^max(e-prec,0))` and rounded half-even, with
the carry when rounding overflows to the next power of ten. -/
def sciDigits (q : ℚ) (prec : ℕ) : ℕ × ℤ :=
  let e := expFor q
  let shift : ℤ := (prec : ℤ) - e
  let aN := q.num.natAbs * (if 0 ≤ shift then 10 ^ shift.toNat else 1)
  let bN := q.den * (if 0 ≤ shift then 1 else 10 ^ (-shift).toNat)
  let m := roundHalfEvenFrac aN bN
  if m = 10 ^ (prec + 1) then (10 ^ prec, e + 1) else (m, e)

/-- The character of a decimal digit. -/
def digitChar (d : ℕ) : Char := Char.ofNat (48 + d)

/-- Exactly `k` decimal digit characters of `n`, most significant first
(leading zeros included). -/
def digitsFixed : ℕ → ℕ → List Char
  | 0, _ => []
  | k + 1, n => digitsFixed k (n / 10) ++ [digitChar (n % 10)]

/-- Python's exponent field: sign then at least two digits. -/
def expString (e : ℤ) : List Char :=
  let sgnChar := if e < 0 then '-' else '+'
  let a := e.natAbs
  if a < 10 then [sgnChar, '0', digitChar a]
  else sgnChar :: digitsFixed (natLog10 a + 1) a

/-- Insert the decimal point after the leading mantissa digit. -/
def insertDot : List Char → List Char
  | [] => []
  | c :: t => c :: '.' :: t

/-- `format_sci(val, precision) = f"{val:.{precision}e}"` (script line 133). -/
def format_sci (q : ℚ) (prec : ℕ) : String :=
  if q = 0 then String.mk (insertDot (List.replicate (prec + 1) '0') ++ 'e' :: expString 0)
  else
    let sgnChars : List Char := if q < 0 then ['-'] else []
    let me := sciDigits q prec
    String.mk (sgnChars ++ insertDot (digitsFixed (prec + 1) me.1) ++ 'e' :: expString me.2)

/-- One row appended to `summary` (script lines 177-185). -/
structure SummaryRecord where
  dgmRegion : String
  mriParameter : String
  pearsonR : String
  pValue : String
  slopeA : String
  interceptB : String
  rSquare : String
deriving DecidableEq

/-- `summary.append({...})` (script lines 177-185): the formatted record built
from the numbers computed for one series. -/
def mkSummaryRecord (region metric : String)
    (rV pV aV aciV bV bciV r2V : ℚ) : SummaryRecord :=
  { dgmRegion := region
    mriParameter := metric
    pearsonR := format_sci rV 4
    pValue := format_sci pV 2
    slopeA := format_sci aV 2 ++ " ± " ++ format_sci aciV 2
    interceptB := format_sci bV 2 ++ " ± " ++ format_sci bciV 2
    rSquare := format_sci r2V 4 }

/-- The number of significant digits a formatted scientific-notation string
displays: its digit characters before the `e`. -/
def mantissaDigitCount (str : String) : ℕ :=
  ((str.toList.takeWhile (fun c => c != 'e')).filter Char.isDigit).length

/-! ## Digit-count facts about `format_sci` -/

lemma length_digitsFixed (k n : ℕ) : (digitsFixed k n).length = k := by
  induction k generalizing n with
  | zero => rfl
  | succ k ih => simp [digitsFixed, ih]

lemma isDigit_digitChar (d : ℕ) (h : d < 10) : (digitChar d).isDigit = true := by
  interval_cases d <;> decide

lemma mem_digitsFixed_isDigit (k n : ℕ) : ∀ c ∈ digitsFixed k n, c.isDigit = true := by
  induction k generalizing n with
  | zero => simp [digitsFixed]
  | succ k ih =>
    intro c hc
    simp only [digitsFixed, List.mem_append, List.mem_singleton] at hc
    rcases hc with h | h
    · exact ih _ _ h
    · exact h ▸ isDigit_digitChar _ (Nat.mod_lt _ (by norm_num))

lemma isDigit_ne_e {c : Char} (h : c.isDigit = true) : (c != 'e') = true := by
  cases hc : c == 'e'
  · simp [bne, hc]
  · have hce : c = 'e' := eq_of_beq hc
    subst hce
    exact absurd h (by decide)

lemma takeWhile_append_all {p : Char → Bool} (l1 l2 : List Char)
    (h : ∀ c ∈ l1, p c = true) : (l1 ++ l2).takeWhile p = l1 ++ l2.takeWhile p := by
  induction l1 with
  | nil => rfl
  | cons a t ih =>
    have ha : p a = true := h a (List.mem_cons_self a t)
    simp [List.takeWhile, ha, ih fun c hc => h c (List.mem_cons_of_mem a hc)]

lemma filter_insertDot (digits : List Char) (hd : ∀ c ∈ digits, c.isDigit = true) :
    (insertDot digits).filter Char.isDigit = digits := by
  cases digits with
  | nil => rfl
  | cons c t =>
    have hc : c.isDigit = true := hd c (List.mem_cons_self c t)
    have ht : t.filter Char.isDigit = t :=
      List.filter_eq_self.mpr fun a ha => hd a (List.mem_cons_of_mem c ha)
    simp [insertDot, List.filter, hc, ht]

lemma mantissaDigitCount_mk (sgnChars digits rest : List Char)
    (hs : ∀ c ∈ sgnChars, c.isDigit = false ∧ (c != 'e') = true)
    (hd : ∀ c ∈ digits, c.isDigit = true) :
    mantissaDigitCount (String.mk (sgnChars ++ insertDot digits ++ 'e' :: rest)) =
      digits.length := by
  have hdotdig : ∀ c ∈ insertDot digits, (c != 'e') = true := by
    intro c hc
    cases digits with
    | nil => simp [insertDot] at hc
    | cons d t =>
      simp only [insertDot, List.mem_cons] at hc
      rcases hc with rfl | rfl | hc
      · exact isDigit_ne_e (hd c (List.mem_cons_self c t))
      · decide
      · exact isDigit_ne_e (hd c (List.mem_cons_of_mem d hc))
  have htoList : (String.mk (sgnChars ++ insertDot digits ++ 'e' :: rest)).toList =
      sgnChars ++ insertDot digits ++ 'e' :: rest := rfl
  rw [mantissaDigitCount, htoList, List.append_assoc,
    takeWhile_append_all _ _ (fun c hc => (hs c hc).2),
    takeWhile_append_all _ _ hdotdig]
  have he : (('e' :: rest).takeWhile (fun c => c != 'e')) = [] := by
    simp [List.takeWhile]
  rw [he, List.append_nil, List.filter_append, filter_insertDot _ hd]
  have hsf : sgnChars.filter Char.isDigit = [] :=
    List.filter_eq_nil_iff.mpr fun c hc => by simp [(hs c hc).1]
  simp [hsf]

/-- Every string `format_sci` produces shows exactly `prec + 1` significant
digits (one before the decimal point and `prec` after it). -/
lemma mantissaDigitCount_format_sci (q : ℚ) (prec : ℕ) :
    mantissaDigitCount (format_sci q prec) = prec + 1 := by
  by_cases hq : q = 0
  · rw [format_sci, if_pos hq]
    have h0 : ∀ c ∈ List.replicate (prec + 1) '0', c.isDigit = true := by
      intro c hc
      rw [List.eq_of_mem_replicate hc]
      decide
    have := mantissaDigitCount_mk [] (List.replicate (prec + 1) '0') (expString 0)
      (by simp) h0
    simpa [List.length_replicate] using this
  · rw [format_sci, if_neg hq]
    have hd := mem_digitsFixed_isDigit (prec + 1) (sciDigits q prec).1
    have hs : ∀ c ∈ (if q < 0 then ['-'] else ([] : List Char)),
        c.isDigit = false ∧ (c != 'e') = true := by
      intro c hc
      by_cases hneg : q < 0
      · rw [if_pos hneg] at hc
        simp only [List.mem_singleton] at hc
        subst hc
        exact ⟨by decide, by decide⟩
      · rw [if_neg hneg] at hc
        simp at hc
    have := mantissaDigitCount_mk (if q < 0 then ['-'] else []) _ (expString (sciDigits q prec).2)
      hs hd
    simpa [length_digitsFixed] using this

/-- C8 counterexample: the `Pearson r` field produced by `format_sci(r, 4)`
for `r = 1` is `"1.0000e+00"`, which displays five significant digits, not
four.  (Pearson r = 1 actually occurs, e.g. for the two-point series of the
end-to-end test.) -/
theorem pearson_field_not_four_digits :
    mantissaDigitCount ((mkSummaryRecord "Caudate" "FA" 1 1 1 1 1 1 1).pearsonR) ≠ 4 := by
  decide

/-- C8 (amended): every summary record formats `Pearson r` and `R_square`
with `format_sci(·, 4)` — scientific notation with 4 digits after the decimal
point, i.e. 5 significant digits — and the p-value, slope, slope CI,
intercept, and intercept CI components with `format_sci(·, 2)` — 2 digits
after the decimal point, i.e. 3 significant digits. -/
theorem summary_record_precisions (region metric : String)
    (rV pV aV aciV bV bciV r2V : ℚ) :
    (mkSummaryRecord region metric rV pV aV aciV bV bciV r2V).pearsonR = format_sci rV 4 ∧
    mantissaDigitCount (mkSummaryRecord region metric rV pV aV aciV bV bciV r2V).pearsonR = 5 ∧
    (mkSummaryRecord region metric rV pV aV aciV bV bciV r2V).pValue = format_sci pV 2 ∧
    mantissaDigitCount (mkSummaryRecord region metric rV pV aV aciV bV bciV r2V).pValue = 3 ∧
    (mkSummaryRecord region metric rV pV aV aciV bV bciV r2V).slopeA =
      format_sci aV 2 ++ " ± " ++ format_sci aciV 2 ∧
    mantissaDigitCount (format_sci aV 2) = 3 ∧
    mantissaDigitCount (format_sci aciV 2) = 3 ∧
    (mkSummaryRecord region metric rV pV aV aciV bV bciV r2V).interceptB =
      format_sci bV 2 ++ " ± " ++ format_sci bciV 2 ∧
    mantissaDigitCount (format_sci bV 2) = 3 ∧
    mantissaDigitCount (format_sci bciV 2) = 3 ∧
    (mkSummaryRecord region metric rV pV aV aciV bV bciV r2V).rSquare = format_sci r2V 4 ∧
    mantissaDigitCount (mkSummaryRecord region metric rV pV aV aciV bV bciV r2V).rSquare = 5 :=
  ⟨rfl, mantissaDigitCount_format_sci rV 4, rfl, mantissaDigitCount_format_sci pV 2, rfl,
    mantissaDigitCount_format_sci aV 2, mantissaDigitCount_format_sci aciV 2, rfl,
    mantissaDigitCount_format_sci bV 2, mantissaDigitCount_format_sci bciV 2, rfl,
    mantissaDigitCount_format_sci r2V 4⟩

/-! ## End-to-end two-case cohort (spec section 8, end-to-end property) -/

/-- An FA/Caudate measurement row of the synthetic end-to-end cohort. -/
def faRow (c : String) (v : ℚ) : Row := ⟨c, "FA", "Caudate", some v⟩

/-- The two synthetic cases: FA values 0.5 and 0.7 for region Caudate. -/
def cohortE2E : List CaseFolder :=
  [⟨"C01", some [faRow "C01" (1 / 2)], none⟩, ⟨"C02", some [faRow "C02" (7 / 10)], none⟩]

/-- The synthetic temperature table: 10 °C and 30 °C. -/
def tempDfE2E : List TempRow :=
  [⟨"C01", some 10, some 10, some 10, some 10⟩, ⟨"C02", some 30, some 30, some 30, some 30⟩]

/-- C7: running the pipeline on the two synthetic cases at temperatures 10 °C
and 30 °C with FA values 0.5 and 0.7 for region "Caudate" yields Pearson
r = 1.0, and the fitted line passes through both points exactly:
slope = 0.01 and intercept = 0.4. -/
theorem two_point_end_to_end :
    pearson_r (pairs (seriesFor (dataAgg cohortE2E tempDfE2E) "FA" "Caudate")) = some 1 ∧
    slope (pairs (seriesFor (dataAgg cohortE2E tempDfE2E) "FA" "Caudate")) = 1 / 100 ∧
    intercept (pairs (seriesFor (dataAgg cohortE2E tempDfE2E) "FA" "Caudate")) = 2 / 5 ∧
    slope (pairs (seriesFor (dataAgg cohortE2E tempDfE2E) "FA" "Caudate")) * 10 +
      intercept (pairs (seriesFor (dataAgg cohortE2E tempDfE2E) "FA" "Caudate")) = 1 / 2 ∧
    slope (pairs (seriesFor (dataAgg cohortE2E tempDfE2E) "FA" "Caudate")) * 30 +
      intercept (pairs (seriesFor (dataAgg cohortE2E tempDfE2E) "FA" "Caudate")) = 7 / 10 := by
  have hp : pairs (seriesFor (dataAgg cohortE2E tempDfE2E) "FA" "Caudate") =
      [(10, 1 / 2), (30, 7 / 10)] := rfl
  rw [hp]
  refine ⟨?_, ?_, ?_, ?_, ?_⟩
  · rw [pearson_r]
    norm_num [allEqualB, xvals, yvals, sgn]
  · norm_num [slope, ssxym, ssxm, listMean, xvals, yvals, x_mean, y_mean]
  · norm_num [intercept, slope, ssxym, ssxm, listMean, xvals, yvals, x_mean, y_mean]
  · norm_num [intercept, slope, ssxym, ssxm, listMean, xvals, yvals, x_mean, y_mean]
  · norm_num [intercept, slope, ssxym, ssxm, listMean, xvals, yvals, x_mean, y_mean]

/-! ## Degenerate series: constant temperatures, two-point fits -/

lemma sum_of_allEq : ∀ (l : List ℚ) (a : ℚ), (∀ v ∈ l, v = a) → l.sum = (l.length : ℚ) * a
  | [], _, _ => by simp
  | b :: t, a, hall => by
    have hb : b = a := hall b (List.mem_cons_self b t)
    have ht := sum_of_allEq t a fun v hv => hall v (List.mem_cons_of_mem b hv)
    simp only [List.sum_cons, ht, hb, List.length_cons]
    push_cast
    ring

lemma listMean_of_allEq {l : List ℚ} {a : ℚ} (hne : l ≠ []) (hall : ∀ v ∈ l, v = a) :
    listMean l = a := by
  have hlen : (l.length : ℚ) ≠ 0 := by
    have h0 : l.length ≠ 0 := fun h => hne (List.length_eq_zero.mp h)
    exact_mod_cast h0
  rw [listMean, sum_of_allEq l a hall, mul_comm, mul_div_assoc, div_self hlen, mul_one]

lemma allEqualB_forall {l : List ℚ} (h : allEqualB l = true) :
    ∀ v ∈ l, v = l.headD 0 := by
  cases l with
  | nil => simp
  | cons a t =>
    intro v hv
    rcases List.mem_cons.mp hv with rfl | hv
    · rfl
    · have hall : t.all (fun b => b == a) = true := by simpa [allEqualB] using h
      have hb : (v == a) = true := List.all_eq_true.mp hall v hv
      simpa using eq_of_beq hb

lemma s_xx_of_const {s : List (ℚ × ℚ)} (hne : s ≠ [])
    (h : allEqualB (xvals s) = true) : s_xx s = 0 := by
  have hxne : xvals s ≠ [] := by
    rw [xvals]
    intro hx
    exact hne (List.map_eq_nil_iff.mp hx)
  have hall := allEqualB_forall h
  have hmean : x_mean s = (xvals s).headD 0 := listMean_of_allEq hxne hall
  rw [s_xx]
  apply List.sum_eq_zero
  intro x hx
  rcases List.mem_map.mp hx with ⟨v, hv, rfl⟩
  rw [hmean, hall v hv]
  ring

/-- For a two-point series with distinct x the OLS line interpolates both
points: the residual sum of squares is exactly zero. -/
lemma rss_two_point (a b c d : ℚ) (h : c ≠ a) : rss [(a, b), (c, d)] = 0 := by
  have hca : c - a ≠ 0 := sub_ne_zero.mpr h
  have hssxm : ssxm [(a, b), (c, d)] = (c - a) ^ 2 / 4 := by
    simp [ssxm, listMean, xvals, x_mean]
    ring
  have hssxym : ssxym [(a, b), (c, d)] = (c - a) * (d - b) / 4 := by
    simp [ssxym, listMean, xvals, yvals, x_mean, y_mean]
    ring
  have hslope : slope [(a, b), (c, d)] = (d - b) / (c - a) := by
    rw [slope, hssxm, hssxym]
    field_simp
    ring
  have hinter : intercept [(a, b), (c, d)] =
      (b + d) / 2 - (d - b) / (c - a) * ((a + c) / 2) := by
    rw [intercept, hslope]
    simp [y_mean, x_mean, listMean, xvals, yvals]
  rw [rss, hslope, hinter]
  simp only [List.map_cons, List.map_nil, List.sum_cons, List.sum_nil]
  field_simp
  ring

/-- C9 counterexample: a two-row series with both temperatures equal to 20 °C
and distinct values passes the validity guard, yet no slope standard error is
ever computed for it: `linregress` raises before script line 170 runs, and no
summary record is emitted. -/
def rowsConstT : List AggRow :=
  [⟨⟨"C01", "FA", "Caudate", some 1⟩, some 20⟩, ⟨⟨"C02", "FA", "Caudate", some 2⟩, some 20⟩]

/-- C9 counterexample (see `rowsConstT`): the claim's conclusion — that the
script computes `se_slope` by dividing by `sqrt(Σ(x−x̄)²) = 0` and produces an
undefined fit for a constant-temperature series — is false: the series passes
the validity guard but crashes `linregress`, so the division on line 170 is
never evaluated and no record is produced. -/
theorem constant_temp_no_division_cex :
    lenOK rowsConstT = true ∧ validCheck rowsConstT = true ∧
    allEqualB (xvals (pairs rowsConstT)) = true ∧
    summaryEmitted rowsConstT = false ∧ seriesCrashes rowsConstT = true := by
  decide

/-- C9 (amended): the validity guard indeed does not require distinct
temperatures — a constant-temperature series with two distinct finite values
passes it — and for such a series `Σ(x−x̄)² = 0`; but `linregress` raises
`ValueError` on constant x, fatally aborting the run before the unguarded
division `se_y / sqrt(s_xx)` is reached, so no summary record is emitted. -/
theorem constant_temp_series_crashes (data : List AggRow) (m reg : String)
    (hlen : lenOK (seriesFor data m reg) = true)
    (hvalid : validCheck (seriesFor data m reg) = true)
    (hconst : allEqualB (xvals (pairs (seriesFor data m reg))) = true) :
    s_xx (pairs (seriesFor data m reg)) = 0 ∧
    linregressRaises (pairs (seriesFor data m reg)) = true ∧
    summaryEmitted (seriesFor data m reg) = false ∧
    seriesCrashes (seriesFor data m reg) = true := by
  have hlen2 : 2 ≤ (seriesFor data m reg).length := of_decide_eq_true hlen
  have hplen : (pairs (seriesFor data m reg)).length = (seriesFor data m reg).length := by
    simp [pairs]
  have hne : pairs (seriesFor data m reg) ≠ [] := by
    intro hnil
    rw [hnil] at hplen
    simp at hplen
    omega
  have hraise : linregressRaises (pairs (seriesFor data m reg)) = true := by
    rw [linregressRaises, hconst, Bool.true_and, decide_eq_true_eq]
    omega
  refine ⟨s_xx_of_const hne hconst, hraise, ?_, ?_⟩
  · simp [summaryEmitted, hraise]
  · simp [seriesCrashes, hlen, hvalid, hraise]

/-- Witness for C9's amended theorem at the concrete constant-temperature
series of `constTWitnessRows`. -/
def constTWitnessRows : List AggRow :=
  [⟨⟨"W01", "T2", "Thalamus", some 3⟩, some 22⟩, ⟨⟨"W02", "T2", "Thalamus", some 5⟩, some 22⟩]

/-- C9 witness: the amended theorem applied to a concrete constant-temperature
series. -/
theorem constant_temp_series_crashes_witness :
    lenOK (seriesFor constTWitnessRows "T2" "Thalamus") = true ∧
    validCheck (seriesFor constTWitnessRows "T2" "Thalamus") = true ∧
    allEqualB (xvals (pairs (seriesFor constTWitnessRows "T2" "Thalamus"))) = true ∧
    s_xx (pairs (seriesFor constTWitnessRows "T2" "Thalamus")) = 0 :=
  ⟨by decide, by decide, by decide,
    (constant_temp_series_crashes constTWitnessRows "T2" "Thalamus"
      (by decide) (by decide) (by decide)).1⟩

/-- C10 counterexample input: a two-point series passing both validity guards
whose two temperatures are equal. -/
def rowsTwoEqualT : List AggRow :=
  [⟨⟨"C01", "MD", "Putamen", some 3⟩, some 25⟩, ⟨⟨"C02", "MD", "Putamen", some 4⟩, some 25⟩]

/-- C10 counterexample: a series with exactly `n = 2` points that passes the
validity checks for which the claimed "summary record is nevertheless still
emitted" fails — its two temperatures are equal, so `linregress` raises and no
record is emitted (the run aborts instead). -/
theorem two_point_equal_temp_not_emitted_cex :
    lenOK rowsTwoEqualT = true ∧ validCheck rowsTwoEqualT = true ∧
    rowsTwoEqualT.length = 2 ∧ summaryEmitted rowsTwoEqualT = false := by
  decide

/-- C10 (amended): for a series with exactly `n = 2` points and two distinct
temperatures that passes the validity checks, the degrees of freedom `n − 2`
are `0` and the residual sum of squares is exactly `0`, so the residual
standard error computed on script line 168 is `0/0` (NaN in floats) and the
confidence half-widths are not well-defined numbers; the summary record is
nevertheless still emitted.  (If the two temperatures are equal, `linregress`
raises instead and no record is emitted.) -/
theorem two_point_dof_zero_emitted (data : List AggRow) (m reg : String)
    (hlen : lenOK (seriesFor data m reg) = true)
    (hvalid : validCheck (seriesFor data m reg) = true)
    (h2 : (seriesFor data m reg).length = 2)
    (hx : allEqualB (xvals (pairs (seriesFor data m reg))) = false) :
    dof (pairs (seriesFor data m reg)) = 0 ∧
    rss (pairs (seriesFor data m reg)) = 0 ∧
    summaryEmitted (seriesFor data m reg) = true := by
  have hplen : (pairs (seriesFor data m reg)).length = 2 := by
    simp [pairs, h2]
  refine ⟨by simp [dof, hplen], ?_, ?_⟩
  · obtain ⟨p, q, hpq⟩ := List.length_eq_two.mp hplen
    have hxv : xvals (pairs (seriesFor data m reg)) = [p.1, q.1] := by
      rw [hpq, xvals]
      rfl
    have hne : q.1 ≠ p.1 := by
      intro hq
      rw [hxv] at hx
      simp [allEqualB, hq] at hx
    rw [hpq]
    have := rss_two_point p.1 p.2 q.1 q.2 hne
    simpa using this
  · rw [summaryEmitted, hlen, hvalid, linregressRaises, hx]
    rfl

/-- C10 witness input: a valid two-point series with distinct temperatures. -/
def rowsTwoDistinctT : List AggRow :=
  [⟨⟨"W01", "T2s", "Brainstem", some 7⟩, some 18⟩, ⟨⟨"W02", "T2s", "Brainstem", some 9⟩, some 28⟩]

/-- C10 witness: the amended theorem applied to the concrete two-point series
`rowsTwoDistinctT`. -/
theorem two_point_dof_zero_emitted_witness :
    lenOK (seriesFor rowsTwoDistinctT "T2s" "Brainstem") = true ∧
    validCheck (seriesFor rowsTwoDistinctT "T2s" "Brainstem") = true ∧
    (seriesFor rowsTwoDistinctT "T2s" "Brainstem").length = 2 ∧
    (dof (pairs (seriesFor rowsTwoDistinctT "T2s" "Brainstem")) = 0 ∧
     rss (pairs (seriesFor rowsTwoDistinctT "T2s" "Brainstem")) = 0 ∧
     summaryEmitted (seriesFor rowsTwoDistinctT "T2s" "Brainstem") = true) :=
  ⟨by decide, by decide, by decide,
    two_point_dof_zero_emitted rowsTwoDistinctT "T2s" "Brainstem"
      (by decide) (by decide) (by decide) (by decide)⟩

/-! ## Deduplication by `groupby(...).first()` -/

lemma map_rowKey_dedupFirst (rows : List Row) :
    (dedupFirst rows).map rowKey =
      List.insertionSort (fun a b => keyLe a b = true) (keysOf rows) := by
  rw [dedupFirst, List.map_map]
  have hid : (rowKey ∘ fun (k : String × String × String) =>
      (⟨k.1, k.2.1, k.2.2, groupFirstValue rows k⟩ : Row)) = id := by
    funext k
    rfl
  rw [hid, List.map_id]

lemma nodup_keys_dedupFirst (rows : List Row) : ((dedupFirst rows).map rowKey).Nodup := by
  rw [map_rowKey_dedupFirst]
  exact ((List.perm_insertionSort _ _).nodup_iff).mpr (List.nodup_dedup _)

lemma filter_map_eq_single {ks : List (String × String × String)}
    {k : String × String × String} (f : (String × String × String) → Row)
    (hf : ∀ k2, rowKey (f k2) = k2) (hnd : ks.Nodup) (hk : k ∈ ks) :
    (ks.map f).filter (fun r => decide (rowKey r = k)) = [f k] := by
  induction ks with
  | nil => simp at hk
  | cons a t ih =>
    rw [List.map_cons, List.filter_cons]
    by_cases hak : a = k
    · subst hak
      have hnotin : a ∉ t := (List.nodup_cons.mp hnd).1
      have hfilter : (t.map f).filter (fun r => decide (rowKey r = a)) = [] := by
        apply List.filter_eq_nil_iff.mpr
        intro r hr
        rcases List.mem_map.mp hr with ⟨b, hb, rfl⟩
        rw [hf b]
        simp only [decide_eq_true_eq]
        intro hba
        exact hnotin (hba ▸ hb)
      simp [hf a, hfilter]
    · have hfalse : (decide (rowKey (f a) = k)) = false := by
        simp [hf a, hak]
      rw [hfalse]
      have hkt : k ∈ t := by
        rcases List.mem_cons.mp hk with h | h
        · exact absurd h.symm hak
        · exact h
      exact ih (List.nodup_cons.mp hnd).2 hkt

lemma dedupFirst_filter_key (rows : List Row) (k : String × String × String)
    (hk : k ∈ keysOf rows) :
    (dedupFirst rows).filter (fun r => decide (rowKey r = k)) =
      [⟨k.1, k.2.1, k.2.2, groupFirstValue rows k⟩] := by
  rw [dedupFirst]
  refine filter_map_eq_single _ (fun k2 => rfl) ?_ ?_
  · exact ((List.perm_insertionSort _ _).nodup_iff).mpr (List.nodup_dedup _)
  · exact ((List.perm_insertionSort _ _).mem_iff).mpr hk

lemma groupFirstValue_first (l1 : List Row) (a : Row) (l2 : List Row)
    (hfirst : ∀ b ∈ l1, rowKey b ≠ rowKey a) (hsome : a.value.isSome = true) :
    groupFirstValue (l1 ++ a :: l2) (rowKey a) = a.value := by
  rw [groupFirstValue, groupRows, List.filter_append]
  have h1 : l1.filter (fun r => decide (rowKey r = rowKey a)) = [] :=
    List.filter_eq_nil_iff.mpr fun b hb => by simp [hfirst b hb]
  rw [h1, List.nil_append, List.filter_cons]
  obtain ⟨v, hv⟩ := Option.isSome_iff_exists.mp hsome
  simp [List.filterMap_cons, hv]

/-- C5: deduplication keeps at most one row per `(case, metric, region)` key
(the key list of the deduplicated table has no duplicates), and when a row `a`
with a non-missing value is the first row of its key group — in particular
when two rows with identical keys and differing values occur, `a` being the
first encountered — exactly that row survives: the deduplicated table's rows
with `a`'s key are exactly `[a]`. -/
theorem dedup_first_occurrence (rows : List Row) :
    ((dedupFirst rows).map rowKey).Nodup ∧
    ∀ (l1 : List Row) (a : Row) (l2 : List Row), rows = l1 ++ a :: l2 →
      (∀ b ∈ l1, rowKey b ≠ rowKey a) → a.value.isSome = true →
      (dedupFirst rows).filter (fun r => decide (rowKey r = rowKey a)) = [a] := by
  refine ⟨nodup_keys_dedupFirst rows, ?_⟩
  intro l1 a l2 hsplit hfirst hsome
  have hmem : a ∈ rows := by
    rw [hsplit]
    exact List.mem_append_right _ (List.mem_cons_self _ _)
  have hk : rowKey a ∈ keysOf rows := by
    rw [keysOf, List.mem_dedup]
    exact List.mem_map_of_mem rowKey hmem
  rw [dedupFirst_filter_key rows (rowKey a) hk]
  have hval : groupFirstValue rows (rowKey a) = a.value := by
    rw [hsplit]
    exact groupFirstValue_first l1 a l2 hfirst hsome
  rw [hval]
  rfl

/-- C5 witness input: a file with two rows of identical key and differing
values (5 then 7). -/
def dupRows : List Row :=
  [⟨"C01", "FA", "Caudate", some 5⟩, ⟨"C01", "FA", "Caudate", some 7⟩]

/-- C5 witness: on `dupRows` the deduplicated table has pairwise-distinct keys
and keeps exactly the first-encountered row (value 5). -/
theorem dedup_first_occurrence_witness :
    ((dedupFirst dupRows).map rowKey).Nodup ∧
    (dedupFirst dupRows).filter
      (fun r => decide (rowKey r = rowKey (⟨"C01", "FA", "Caudate", some 5⟩ : Row))) =
      [⟨"C01", "FA", "Caudate", some 5⟩] :=
  ⟨(dedup_first_occurrence dupRows).1,
    (dedup_first_occurrence dupRows).2 [] ⟨"C01", "FA", "Caudate", some 5⟩
      [⟨"C01", "FA", "Caudate", some 7⟩] rfl (by simp) (by decide)⟩

/-! ## Shape of the aggregated table for one case -/

lemma filterMap_always_some {α β : Type} (l : List α) (f : α → Option β) (h : α → β)
    (hf : ∀ a, f a = some (h a)) : l.filterMap f = l.map h := by
  induction l with
  | nil => rfl
  | cons a t ih => rw [List.filterMap_cons, hf a, List.map_cons, ih]

lemma processCase_eq_map (f : CaseFolder) (mainRows : List Row) (temp_df : List TempRow)
    (trow : TempRow) (rest : List TempRow)
    (hmain : f.fileMain = some mainRows)
    (htemp : temp_df.filter (fun t => t.caseName == f.name) = trow :: rest) :
    processCase temp_df f =
      metrics.map (fun m =>
        ((processMain f.fileT1 mainRows).filter (fun r => r.metric == m)).map
          (attachTemp (colValue trow (lookupTempCol m)))) := by
  simp only [processCase, hmain, htemp, List.isEmpty_cons, Bool.false_eq_true, if_false,
    List.map_cons]
  exact filterMap_always_some _ _ _ fun m => rfl

lemma filter_flatten_metric : ∀ (ms : List String) (g : String → List AggRow),
    (∀ m r, r ∈ g m → r.metric = m) → ms.Nodup → ∀ m2 : String,
      ((ms.map g).flatten.filter (fun r => r.metric == m2)) = if m2 ∈ ms then g m2 else []
  | [], g, _, _, m2 => by simp
  | a :: t, g, hg, hnd, m2 => by
    have hrec := filter_flatten_metric t g hg (List.nodup_cons.mp hnd).2 m2
    rw [List.map_cons, List.flatten_cons, List.filter_append, hrec]
    by_cases hm : m2 = a
    · subst hm
      have hga : (g m2).filter (fun r => r.metric == m2) = g m2 :=
        List.filter_eq_self.mpr fun r hr => by simp [hg m2 r hr]
      have hnotin : m2 ∉ t := (List.nodup_cons.mp hnd).1
      simp [hga, hnotin]
    · have hga : (g a).filter (fun r => r.metric == m2) = [] := by
        refine List.filter_eq_nil_iff.mpr fun r hr => ?_
        rw [hg a r hr]
        simp only [beq_iff_eq]
        exact fun h => hm h.symm
      by_cases hmt : m2 ∈ t
      · simp [hga, hmt, hm]
      · simp [hga, hmt, hm]

/-- The rows with metric `m2` of a single-case aggregated table: the
deduplicated per-case table's metric-`m2` rows, with that metric's temperature
cell attached. -/
lemma dataAgg_single_filter (f : CaseFolder) (mainRows : List Row) (temp_df : List TempRow)
    (trow : TempRow) (rest : List TempRow)
    (hmain : f.fileMain = some mainRows)
    (htemp : temp_df.filter (fun t => t.caseName == f.name) = trow :: rest)
    (m2 : String) (hm2 : m2 ∈ metrics) :
    (dataAgg [f] temp_df).filter (fun r => r.metric == m2) =
      ((processMain f.fileT1 mainRows).filter (fun r => r.metric == m2)).map
        (attachTemp (colValue trow (lookupTempCol m2))) := by
  have hshape := processCase_eq_map f mainRows temp_df trow rest hmain htemp
  have hdata : dataAgg [f] temp_df = (processCase temp_df f).flatten := by
    simp [dataAgg, allData]
  rw [hdata, hshape]
  have hg : ∀ m r, r ∈ ((processMain f.fileT1 mainRows).filter
      (fun r => r.metric == m)).map (attachTemp (colValue trow (lookupTempCol m))) →
      r.metric = m := by
    intro m r hr
    rcases List.mem_map.mp hr with ⟨r0, hr0, rfl⟩
    have := (List.mem_filter.mp hr0).2
    exact eq_of_beq this
  rw [filter_flatten_metric metrics _ hg (by decide) m2, if_pos hm2]

/-! ## Corrected-T1 replacement (script lines 96-107) -/

lemma mem_dedupFirst_key (rows : List Row) (r : Row) (hr : r ∈ dedupFirst rows) :
    ∃ r0 ∈ rows, rowKey r0 = rowKey r := by
  rw [dedupFirst] at hr
  rcases List.mem_map.mp hr with ⟨k, hk, rfl⟩
  have hk2 : k ∈ keysOf rows := (List.perm_insertionSort _ _).mem_iff.mp hk
  rw [keysOf, List.mem_dedup] at hk2
  rcases List.mem_map.mp hk2 with ⟨r0, hr0, hkey⟩
  exact ⟨r0, hr0, by rw [hkey]; rfl⟩

lemma dedupFirst_metric_eq (l : List Row) (m : String) (hl : ∀ r ∈ l, r.metric = m) :
    ∀ r ∈ dedupFirst l, r.metric = m := by
  intro r hr
  obtain ⟨r0, hr0, hkey⟩ := mem_dedupFirst_key l r hr
  calc r.metric = (rowKey r).2.1 := rfl
  _ = (rowKey r0).2.1 := by rw [hkey]
  _ = m := hl r0 hr0

lemma processMain_T1_filter (t1rows mainRows : List Row) (hne : t1rows ≠ []) :
    (processMain (some t1rows) mainRows).filter (fun r => r.metric == "T1") =
      dedupFirst ((excludeRegions t1rows).filter (fun r => r.metric == "T1")) := by
  have hempty : t1rows.isEmpty = false := by
    cases t1rows with
    | nil => exact absurd rfl hne
    | cons a t => rfl
  rw [processMain]
  simp only [Option.getD_some, hempty, Bool.false_eq_true, if_false, List.filter_append]
  have h1 : ((dedupFirst (excludeRegions mainRows)).filter
      (fun r => !(r.metric == "T1"))).filter (fun r => r.metric == "T1") = [] := by
    rw [List.filter_filter]
    refine List.filter_eq_nil_iff.mpr fun r _ => ?_
    cases h : r.metric == "T1" <;> simp [h]
  have h2 : (dedupFirst ((excludeRegions t1rows).filter (fun r => r.metric == "T1"))).filter
      (fun r => r.metric == "T1") =
      dedupFirst ((excludeRegions t1rows).filter (fun r => r.metric == "T1")) := by
    refine List.filter_eq_self.mpr fun r hr => ?_
    have hm := dedupFirst_metric_eq _ "T1" (fun r0 hr0 => eq_of_beq (List.mem_filter.mp hr0).2) r hr
    simp [hm]
  rw [h1, h2, List.nil_append]

lemma processMain_other_filter (t1rows mainRows : List Row) (hne : t1rows ≠ [])
    (m2 : String) (hm2 : m2 ≠ "T1") :
    (processMain (some t1rows) mainRows).filter (fun r => r.metric == m2) =
      (dedupFirst (excludeRegions mainRows)).filter (fun r => r.metric == m2) := by
  have hempty : t1rows.isEmpty = false := by
    cases t1rows with
    | nil => exact absurd rfl hne
    | cons a t => rfl
  rw [processMain]
  simp only [Option.getD_some, hempty, Bool.false_eq_true, if_false, List.filter_append]
  have h1 : ((dedupFirst (excludeRegions mainRows)).filter
      (fun r => !(r.metric == "T1"))).filter (fun r => r.metric == m2) =
      (dedupFirst (excludeRegions mainRows)).filter (fun r => r.metric == m2) := by
    rw [List.filter_filter]
    refine List.filter_congr fun r _ => ?_
    cases h : r.metric == m2
    · simp
    · have : r.metric = m2 := eq_of_beq h
      have hT1 : (r.metric == "T1") = false := by
        rw [this]
        exact beq_false_of_ne hm2
      simp [hT1]
  have h2 : (dedupFirst ((excludeRegions t1rows).filter (fun r => r.metric == "T1"))).filter
      (fun r => r.metric == m2) = [] := by
    refine List.filter_eq_nil_iff.mpr fun r hr => ?_
    have hm := dedupFirst_metric_eq _ "T1" (fun r0 hr0 => eq_of_beq (List.mem_filter.mp hr0).2) r hr
    rw [hm]
    simp only [beq_iff_eq]
    exact fun h => hm2 h.symm
  rw [h1, h2, List.append_nil]

/-- C3 counterexample input: the case has a T1 row in its main file and an
existing corrected-T1 file that parsed to an *empty* table. -/
def cohortEmptyT1 : List CaseFolder := [⟨"C01", some [⟨"C01", "T1", "Caudate", some 5⟩], some []⟩]

/-- Temperature table for the C3 counterexample. -/
def tempDfEmptyT1 : List TempRow := [⟨"C01", some 20, some 20, some 20, some 20⟩]

/-- C3 counterexample: for this case a corrected-T1 file exists (it parsed to
an empty table), yet the aggregated table still contains the uncorrected T1
row — the `if not df_t1.empty` guard skips the replacement, so "zero
uncorrected T1 rows" is false as stated. -/
theorem corrected_t1_empty_file_cex :
    (cohortEmptyT1.head?.map (fun f => f.fileT1)) = some (some []) ∧
    (dataAgg cohortEmptyT1 tempDfEmptyT1).filter (fun r => r.metric == "T1") =
      [⟨⟨"C01", "T1", "Caudate", some 5⟩, some 20⟩] ∧
    (dataAgg cohortEmptyT1 tempDfEmptyT1).filter (fun r => r.metric == "T1") ≠ [] := by
  refine ⟨rfl, by decide, by decide⟩

/-- C3 (amended): for every case whose corrected-T1 file exists *and parsed to
a non-empty table*, the aggregated table's T1 rows for that case are exactly
the corrected-T1 file's rows after region exclusion and deduplication (with
the T1 temperature attached) — in particular zero uncorrected T1 rows survive
— and rows of every other metric are exactly those of the main file's
processing, unaffected by the replacement. -/
theorem corrected_t1_replaces_uncorrected (f : CaseFolder) (mainRows t1rows : List Row)
    (temp_df : List TempRow) (trow : TempRow) (rest : List TempRow)
    (hmain : f.fileMain = some mainRows) (ht1 : f.fileT1 = some t1rows) (hne : t1rows ≠ [])
    (htemp : temp_df.filter (fun t => t.caseName == f.name) = trow :: rest) :
    (dataAgg [f] temp_df).filter (fun r => r.metric == "T1") =
      (dedupFirst ((excludeRegions t1rows).filter (fun r => r.metric == "T1"))).map
        (attachTemp (colValue trow (lookupTempCol "T1"))) ∧
    ∀ m2, m2 ∈ metrics → m2 ≠ "T1" →
      (dataAgg [f] temp_df).filter (fun r => r.metric == m2) =
        ((dedupFirst (excludeRegions mainRows)).filter (fun r => r.metric == m2)).map
          (attachTemp (colValue trow (lookupTempCol m2))) := by
  constructor
  · rw [dataAgg_single_filter f mainRows temp_df trow rest hmain htemp "T1" (by decide),
      ht1, processMain_T1_filter t1rows mainRows hne]
  · intro m2 hm2 hm2T1
    rw [dataAgg_single_filter f mainRows temp_df trow rest hmain htemp m2 hm2,
      ht1, processMain_other_filter t1rows mainRows hne m2 hm2T1]

/-- C3 witness cohort: a main file with T1 and FA rows, and a non-empty
corrected-T1 file. -/
def folderW3 : CaseFolder :=
  ⟨"C01", some [⟨"C01", "T1", "Caudate", some 5⟩, ⟨"C01", "FA", "Caudate", some 2⟩],
    some [⟨"C01", "T1", "Caudate", some 9⟩]⟩

/-- C3 witness temperature table. -/
def tempDfW3 : List TempRow := [⟨"C01", some 20, some 21, some 22, some 23⟩]

/-- C3 witness: the amended theorem applied to `folderW3` — the aggregated T1
rows are exactly the corrected ones and the FA rows are unaffected. -/
theorem corrected_t1_replaces_uncorrected_witness :
    (dataAgg [folderW3] tempDfW3).filter (fun r => r.metric == "T1") =
      (dedupFirst ((excludeRegions [⟨"C01", "T1", "Caudate", some 9⟩]).filter
        (fun r => r.metric == "T1"))).map
        (attachTemp (colValue ⟨"C01", some 20, some 21, some 22, some 23⟩ (lookupTempCol "T1"))) ∧
    (dataAgg [folderW3] tempDfW3).filter (fun r => r.metric == "FA") =
      ((dedupFirst (excludeRegions
          [⟨"C01", "T1", "Caudate", some 5⟩, ⟨"C01", "FA", "Caudate", some 2⟩])).filter
        (fun r => r.metric == "FA")).map
        (attachTemp (colValue ⟨"C01", some 20, some 21, some 22, some 23⟩ (lookupTempCol "FA"))) := by
  have h := corrected_t1_replaces_uncorrected folderW3
    [⟨"C01", "T1", "Caudate", some 5⟩, ⟨"C01", "FA", "Caudate", some 2⟩]
    [⟨"C01", "T1", "Caudate", some 9⟩] tempDfW3 ⟨"C01", some 20, some 21, some 22, some 23⟩ []
    rfl rfl (by decide) (by decide)
  exact ⟨h.1, h.2 "FA" (by decide) (by decide)⟩

/-! ## Missing per-metric temperature values (script lines 111-123) -/

/-- C4 counterexample input: the case's `temp_T1` cell is missing (NaN). -/
def cohortNoT1Temp : List CaseFolder := [⟨"C01", some [⟨"C01", "T1", "Caudate", some 1⟩], none⟩]

/-- Temperature table for the C4 counterexample: `temp_T1 = none`. -/
def tempDfNoT1Temp : List TempRow := [⟨"C01", some 20, none, some 20, some 20⟩]

/-- C4 counterexample: the case's `temp_T1` cell is missing, yet the case
still contributes its T1 row to the aggregated table (with a missing
temperature attached) — the claimed "zero rows for that metric" is false: the
`len(temp_value) == 0` guard cannot fire once the case's temperature row
exists, so the subset is appended with a NaN temperature. -/
theorem missing_temp_rows_still_aggregated_cex :
    colValue ⟨"C01", some 20, none, some 20, some 20⟩ (lookupTempCol "T1") = none ∧
    ((dataAgg cohortNoT1Temp tempDfNoT1Temp).filter (fun r => r.metric == "T1")).length = 1 ∧
    ((dataAgg cohortNoT1Temp tempDfNoT1Temp).filter (fun r => r.metric == "T1")).length ≠ 0 := by
  refine ⟨rfl, by decide, by decide⟩

/-- C4 (amended): when the case's temperature cell for a metric's mapped
column is missing, the case's rows for that metric are nevertheless appended
to the aggregated table, carrying a missing temperature; every
`(metric, region)` series containing such a row then fails the statistics
stage's null check, so the rows contribute to no summary record or plot;
rows for metrics whose temperature value is present are kept with that
temperature attached. -/
theorem missing_temp_skips_metric_statistics (f : CaseFolder) (mainRows : List Row)
    (temp_df : List TempRow) (trow : TempRow) (rest : List TempRow) (m2 : String)
    (hmain : f.fileMain = some mainRows)
    (htemp : temp_df.filter (fun t => t.caseName == f.name) = trow :: rest)
    (hm2 : m2 ∈ metrics) (hnone : colValue trow (lookupTempCol m2) = none) :
    (dataAgg [f] temp_df).filter (fun r => r.metric == m2) =
      ((processMain f.fileT1 mainRows).filter (fun r => r.metric == m2)).map
        (attachTemp none) ∧
    (∀ reg, seriesFor (dataAgg [f] temp_df) m2 reg ≠ [] →
      validCheck (seriesFor (dataAgg [f] temp_df) m2 reg) = false) ∧
    (∀ m3 v, m3 ∈ metrics → colValue trow (lookupTempCol m3) = some v →
      (dataAgg [f] temp_df).filter (fun r => r.metric == m3) =
        ((processMain f.fileT1 mainRows).filter (fun r => r.metric == m3)).map
          (attachTemp (some v))) := by
  have hfilter := dataAgg_single_filter f mainRows temp_df trow rest hmain htemp m2 hm2
  rw [hnone] at hfilter
  refine ⟨hfilter, ?_, ?_⟩
  · intro reg hne
    obtain ⟨r, hr⟩ := List.exists_mem_of_ne_nil _ hne
    have hrf := List.mem_filter.mp hr
    have hrm : (r.metric == m2) = true := (Bool.and_eq_true _ _ |>.mp hrf.2).1
    have hrdata : r ∈ (dataAgg [f] temp_df).filter (fun r => r.metric == m2) :=
      List.mem_filter.mpr ⟨hrf.1, hrm⟩
    rw [hfilter] at hrdata
    rcases List.mem_map.mp hrdata with ⟨r0, _, rfl⟩
    have htempnone : (attachTemp none r0).temperature.isNone = true := rfl
    rw [validCheck, skipCheck]
    have hany : (seriesFor (dataAgg [f] temp_df) m2 reg).any
        (fun r => r.temperature.isNone) = true :=
      List.any_eq_true.mpr ⟨attachTemp none r0, hr, htempnone⟩
    rw [hany]
    rfl
  · intro m3 v hm3 hv
    have h3 := dataAgg_single_filter f mainRows temp_df trow rest hmain htemp m3 hm3
    rw [hv] at h3
    exact h3

/-- C4 witness cohort: `temp_T1` missing, `temp_DTI` present, with one T1 row
and one FA row. -/
def folderW4 : CaseFolder :=
  ⟨"C05", some [⟨"C05", "T1", "Putamen", some 4⟩, ⟨"C05", "FA", "Putamen", some 2⟩], none⟩

/-- C4 witness temperature table. -/
def tempDfW4 : List TempRow := [⟨"C05", some 31, none, some 32, some 33⟩]

/-- C4 witness: the amended theorem applied to `folderW4` for metric T1
(missing temperature) — the T1 rows are aggregated with a missing temperature
and every T1 series from this table fails the validity check. -/
theorem missing_temp_skips_metric_statistics_witness :
    (dataAgg [folderW4] tempDfW4).filter (fun r => r.metric == "T1") =
      ((processMain none [⟨"C05", "T1", "Putamen", some 4⟩, ⟨"C05", "FA", "Putamen", some 2⟩]).filter
        (fun r => r.metric == "T1")).map (attachTemp none) ∧
    (∀ reg, seriesFor (dataAgg [folderW4] tempDfW4) "T1" reg ≠ [] →
      validCheck (seriesFor (dataAgg [folderW4] tempDfW4) "T1" reg) = false) := by
  have h := missing_temp_skips_metric_statistics folderW4
    [⟨"C05", "T1", "Putamen", some 4⟩, ⟨"C05", "FA", "Putamen", some 2⟩] tempDfW4
    ⟨"C05", some 31, none, some 32, some 33⟩ [] "T1" rfl (by decide) (by decide) rfl
  exact ⟨h.1, h.2.1⟩

/-! ## The fatal checks (script lines 125-126 and the `linregress` raise) -/

lemma processCase_eq_nil_iff (temp_df : List TempRow) (f : CaseFolder) :
    processCase temp_df f = [] ↔ skippedCase temp_df f = true := by
  rw [skippedCase]
  cases hmain : f.fileMain with
  | none => simp [processCase, hmain]
  | some mainRows =>
    cases htemp : temp_df.filter (fun t => t.caseName == f.name) with
    | nil => simp [processCase, hmain, htemp]
    | cons trow rest =>
      rw [processCase_eq_map f mainRows temp_df trow rest hmain htemp]
      simp [hmain, htemp, metrics]

/-- C6 counterexample input: one case whose main file exists but is empty, and
whose temperature row exists — ingestion yields zero rows. -/
def cohortEmptyMain : List CaseFolder := [⟨"C01", some [], none⟩]

/-- Temperature table for the C6 counterexample. -/
def tempDfEmptyMain : List TempRow := [⟨"C01", some 20, some 20, some 20, some 20⟩]

/-- C6 counterexample: ingestion yields zero rows for the entire cohort, yet
the run does not abort — the fatal check tests emptiness of the `all_data`
accumulator list, and five empty per-metric subsets were appended to it. -/
theorem zero_rows_without_abort_cex :
    (dataAgg cohortEmptyMain tempDfEmptyMain).length = 0 ∧
    runAborts cohortEmptyMain tempDfEmptyMain = false := by
  decide

/-- C6 (amended): the zero-data fatal check fires iff the accumulator list is
empty, i.e. iff every case was skipped (missing main file or missing
temperature row); when it fires the aggregated table is indeed empty and the
abort happens before any output, but ingestion yielding zero rows does not by
itself abort (empty subsets still populate the accumulator).  Moreover the run
is not abort-free otherwise: it also aborts when some `(metric, region)`
series passes the validity checks with all temperatures equal, because
`linregress` then raises `ValueError`. -/
theorem abort_characterization (cohort : List CaseFolder) (temp_df : List TempRow) :
    (ingestAborts cohort temp_df = true ↔ ∀ f ∈ cohort, skippedCase temp_df f = true) ∧
    (ingestAborts cohort temp_df = true → dataAgg cohort temp_df = []) ∧
    (runAborts cohort temp_df = true ↔
      ((∀ f ∈ cohort, skippedCase temp_df f = true) ∨
        ∃ m ∈ metrics, ∃ g ∈ structure_groups, ∃ reg ∈ g.2,
          seriesCrashes (seriesFor (dataAgg cohort temp_df) m reg) = true)) := by
  have hingest : ingestAborts cohort temp_df = true ↔
      ∀ f ∈ cohort, skippedCase temp_df f = true := by
    rw [ingestAborts, List.isEmpty_iff, allData, List.flatten_eq_nil_iff]
    constructor
    · intro h f hf
      exact (processCase_eq_nil_iff temp_df f).mp (h _ (List.mem_map_of_mem _ hf))
    · intro h l hl
      rcases List.mem_map.mp hl with ⟨f, hf, rfl⟩
      exact (processCase_eq_nil_iff temp_df f).mpr (h f hf)
  refine ⟨hingest, ?_, ?_⟩
  · intro h
    rw [dataAgg, List.isEmpty_iff.mp h]
    rfl
  · rw [runAborts, Bool.or_eq_true, hingest]
    have hstats : statsCrash (dataAgg cohort temp_df) = true ↔
        ∃ m ∈ metrics, ∃ g ∈ structure_groups, ∃ reg ∈ g.2,
          seriesCrashes (seriesFor (dataAgg cohort temp_df) m reg) = true := by
      rw [statsCrash]
      simp [List.any_eq_true]
    rw [hstats]

/-- C6 witness: the amended characterization instantiated at the concrete
zero-row cohort `cohortEmptyMain`. -/
theorem abort_characterization_witness :
    (ingestAborts cohortEmptyMain tempDfEmptyMain = true ↔
      ∀ f ∈ cohortEmptyMain, skippedCase tempDfEmptyMain f = true) ∧
    (ingestAborts cohortEmptyMain tempDfEmptyMain = true →
      dataAgg cohortEmptyMain tempDfEmptyMain = []) ∧
    (runAborts cohortEmptyMain tempDfEmptyMain = true ↔
      ((∀ f ∈ cohortEmptyMain, skippedCase tempDfEmptyMain f = true) ∨
        ∃ m ∈ metrics, ∃ g ∈ structure_groups, ∃ reg ∈ g.2,
          seriesCrashes (seriesFor (dataAgg cohortEmptyMain tempDfEmptyMain) m reg) = true)) :=
  abort_characterization cohortEmptyMain tempDfEmptyMain

/-! ## The script's standard errors against the spec's formulas -/

lemma cast_list_sum (l : List ℚ) : ((l.sum : ℚ) : ℝ) = (l.map (fun q : ℚ => (q : ℝ))).sum := by
  have h := map_list_sum (Rat.castHom ℝ) l
  simp only [map_ratCast, Rat.cast_inj] at h ⊢
  exact h

lemma cast_x_mean (s : List (ℚ × ℚ)) : ((x_mean s : ℚ) : ℝ) = specXbar s := by
  rw [x_mean, listMean, Rat.cast_div, cast_list_sum, specXbar, specN, specX, xvals, List.map_map]
  simp [Function.comp_def]

lemma cast_y_mean (s : List (ℚ × ℚ)) : ((y_mean s : ℚ) : ℝ) = specYbar s := by
  rw [y_mean, listMean, Rat.cast_div, cast_list_sum, specYbar, specN, specY, yvals, List.map_map]
  simp [Function.comp_def]

lemma cast_s_xx (s : List (ℚ × ℚ)) : ((s_xx s : ℚ) : ℝ) = specSxx s := by
  rw [s_xx, cast_list_sum, specSxx, specX, xvals]
  simp only [List.map_map]
  refine congrArg List.sum (List.map_congr_left fun p _ => ?_)
  simp only [Function.comp_def]
  push_cast [cast_x_mean]
  ring

lemma cast_dotProd (s : List (ℚ × ℚ)) : ((dotProd s : ℚ) : ℝ) = specSxy s := by
  rw [dotProd, cast_list_sum, specSxy]
  simp only [List.map_map]
  refine congrArg List.sum (List.map_congr_left fun p _ => ?_)
  simp only [Function.comp_def]
  push_cast [cast_x_mean, cast_y_mean]
  ring

lemma q_div_div (a b c : ℚ) (hc : c ≠ 0) : a / c / (b / c) = a / b := by
  by_cases hb : b = 0
  · simp [hb]
  · field_simp

lemma ssxm_eq_div (s : List (ℚ × ℚ)) : ssxm s = s_xx s / (s.length : ℚ) := by
  rw [ssxm, listMean, s_xx]
  congr 1
  simp [xvals]

lemma ssym_eq_div (s : List (ℚ × ℚ)) : ssym s = s_yy s / (s.length : ℚ) := by
  rw [ssym, listMean, s_yy]
  congr 1
  simp [yvals]

lemma ssxym_eq_div (s : List (ℚ × ℚ)) : ssxym s = dotProd s / (s.length : ℚ) := by
  rw [ssxym, listMean, dotProd]
  congr 1
  simp

lemma cast_slope (s : List (ℚ × ℚ)) (hn : s.length ≠ 0) :
    ((slope s : ℚ) : ℝ) = specSlope s := by
  have hq : (s.length : ℚ) ≠ 0 := by exact_mod_cast hn
  rw [slope, ssxym_eq_div, ssxm_eq_div, q_div_div _ _ _ hq, Rat.cast_div, cast_dotProd,
    cast_s_xx, specSlope]

lemma cast_intercept (s : List (ℚ × ℚ)) (hn : s.length ≠ 0) :
    ((intercept s : ℚ) : ℝ) = specIntercept s := by
  rw [intercept, Rat.cast_sub, Rat.cast_mul, cast_y_mean, cast_slope s hn, cast_x_mean,
    specIntercept]

lemma cast_rss (s : List (ℚ × ℚ)) (hn : s.length ≠ 0) : ((rss s : ℚ) : ℝ) = specRSS s := by
  rw [rss, cast_list_sum, specRSS]
  simp only [List.map_map]
  refine congrArg List.sum (List.map_congr_left fun p _ => ?_)
  simp only [Function.comp_def]
  push_cast [cast_slope s hn, cast_intercept s hn]
  ring

lemma cast_dof (s : List (ℚ × ℚ)) (h2 : 2 ≤ s.length) : ((dof s : ℕ) : ℝ) = specN s - 2 := by
  rw [dof, specN]
  push_cast [Nat.cast_sub h2]
  norm_num

lemma se_y_eq_spec (s : List (ℚ × ℚ)) (h2 : 2 ≤ s.length) : se_y s = specResidSE s := by
  rw [se_y, specResidSE, cast_rss s (by omega), cast_dof s h2]

lemma se_slope_eq_spec (s : List (ℚ × ℚ)) (h2 : 2 ≤ s.length) : se_slope s = specSlopeSE s := by
  rw [se_slope, specSlopeSE, se_y_eq_spec s h2, cast_s_xx]

lemma se_intercept_eq_spec (s : List (ℚ × ℚ)) (h2 : 2 ≤ s.length) :
    se_intercept s = specInterceptSE s := by
  rw [se_intercept, specInterceptSE, se_y_eq_spec s h2, cast_s_xx, cast_x_mean, n_pts, specN]

lemma summaryEmitted_parts {rows : List AggRow} (h : summaryEmitted rows = true) :
    lenOK rows = true ∧ validCheck rows = true ∧ linregressRaises (pairs rows) = false := by
  rw [summaryEmitted] at h
  rcases (Bool.and_eq_true _ _).mp h with ⟨h1, h3⟩
  rcases (Bool.and_eq_true _ _).mp h1 with ⟨hl, hv⟩
  refine ⟨hl, hv, ?_⟩
  simpa using h3

lemma pairs_length (rows : List AggRow) : (pairs rows).length = rows.length := by
  simp [pairs]

/-- C1: for every `(metric, region)` series whose summary record is reported
(it passes the validity preconditions and `linregress` returns), the
confidence-interval half-widths the script computes equal the t-critical
value at `n − 2` degrees of freedom times the spec's analytic standard
errors: residual SE over `n − 2` degrees of freedom, slope SE =
residual SE / √(Σ(x−x̄)²), intercept SE = residual SE × √(1/n + x̄²/Σ(x−x̄)²). -/
theorem ci_halfwidths_match_spec (tCrit : ℕ → ℝ) (data : List AggRow) (m reg : String)
    (hemit : summaryEmitted (seriesFor data m reg) = true) :
    slope_ci tCrit (pairs (seriesFor data m reg)) =
      tCrit (dof (pairs (seriesFor data m reg))) *
        specSlopeSE (pairs (seriesFor data m reg)) ∧
    intercept_ci tCrit (pairs (seriesFor data m reg)) =
      tCrit (dof (pairs (seriesFor data m reg))) *
        specInterceptSE (pairs (seriesFor data m reg)) := by
  obtain ⟨hlen, -, -⟩ := summaryEmitted_parts hemit
  have h2 : 2 ≤ (pairs (seriesFor data m reg)).length := by
    rw [pairs_length]
    exact of_decide_eq_true hlen
  exact ⟨by rw [slope_ci, se_slope_eq_spec _ h2],
    by rw [intercept_ci, se_intercept_eq_spec _ h2]⟩

/-- C1 witness input: a two-point series with distinct temperatures and
distinct values. -/
def rowsW1 : List AggRow :=
  [⟨⟨"C01", "MD", "Caudate", some 1⟩, some 10⟩, ⟨⟨"C02", "MD", "Caudate", some 2⟩, some 30⟩]

/-- C1 witness: the theorem applied at the concrete series `rowsW1` with
`tCrit = t.ppf(0.975, ·)` abstracted as the constant-one function. -/
theorem ci_halfwidths_match_spec_witness :
    summaryEmitted (seriesFor rowsW1 "MD" "Caudate") = true ∧
    (slope_ci (fun _ => 1) (pairs (seriesFor rowsW1 "MD" "Caudate")) =
      (fun _ : ℕ => (1 : ℝ)) (dof (pairs (seriesFor rowsW1 "MD" "Caudate"))) *
        specSlopeSE (pairs (seriesFor rowsW1 "MD" "Caudate")) ∧
    intercept_ci (fun _ => 1) (pairs (seriesFor rowsW1 "MD" "Caudate")) =
      (fun _ : ℕ => (1 : ℝ)) (dof (pairs (seriesFor rowsW1 "MD" "Caudate"))) *
        specInterceptSE (pairs (seriesFor rowsW1 "MD" "Caudate"))) :=
  ⟨by decide, ci_halfwidths_match_spec (fun _ => 1) rowsW1 "MD" "Caudate" (by decide)⟩

/-! ## `pearsonr` against `linregress`'s correlation coefficient -/

lemma sq_dev_sum_pos {l : List ℚ} (c : ℚ) {a b : ℚ} (ha : a ∈ l) (hb : b ∈ l)
    (hab : a ≠ b) : 0 < (l.map (fun v => (v - c) ^ 2)).sum := by
  have hnonneg : ∀ x ∈ l.map (fun v => (v - c) ^ 2), 0 ≤ x := by
    intro x hx
    rcases List.mem_map.mp hx with ⟨v, _, rfl⟩
    positivity
  have hsumnn : 0 ≤ (l.map (fun v => (v - c) ^ 2)).sum := List.sum_nonneg hnonneg
  rcases eq_or_lt_of_le hsumnn with heq | hlt
  · exfalso
    have hzero : ∀ x ∈ l.map (fun v => (v - c) ^ 2), x = 0 := by
      intro x hx
      have hle := List.single_le_sum hnonneg x hx
      rw [← heq] at hle
      exact le_antisymm hle (hnonneg x hx)
    have hac : (a - c) ^ 2 = 0 := hzero _ (List.mem_map_of_mem _ ha)
    have hbc : (b - c) ^ 2 = 0 := hzero _ (List.mem_map_of_mem _ hb)
    have ha0 : a = c := by nlinarith [sq_nonneg (a - c)]
    have hb0 : b = c := by nlinarith [sq_nonneg (b - c)]
    exact hab (ha0.trans hb0.symm)
  · exact hlt

lemma two_distinct_of_dedup {l : List ℚ} (h : 2 ≤ l.dedup.length) :
    ∃ a ∈ l, ∃ b ∈ l, a ≠ b := by
  match hd : l.dedup with
  | [] => rw [hd] at h; simp at h
  | [a] => rw [hd] at h; simp at h
  | a :: b :: t =>
    have hnd : l.dedup.Nodup := List.nodup_dedup l
    rw [hd] at hnd
    have hab : a ≠ b := by
      intro hab
      subst hab
      simp at hnd
    have ha : a ∈ l := List.mem_dedup.mp (hd ▸ List.mem_cons_self a (b :: t))
    have hb : b ∈ l := List.mem_dedup.mp
      (hd ▸ List.mem_cons_of_mem a (List.mem_cons_self b t))
    exact ⟨a, ha, b, hb, hab⟩

lemma two_distinct_of_not_allEqual {l : List ℚ} (h : allEqualB l = false) :
    ∃ a ∈ l, ∃ b ∈ l, a ≠ b := by
  cases l with
  | nil => simp [allEqualB] at h
  | cons a t =>
    have ht : t.all (fun b => b == a) = false := by simpa [allEqualB] using h
    have hex : ∃ b ∈ t, (b == a) = false := by
      by_contra hc
      push_neg at hc
      have hall : t.all (fun b => b == a) = true := List.all_eq_true.mpr fun b hb => by
        simpa [Bool.not_eq_false] using hc b hb
      rw [hall] at ht
      cases ht
    obtain ⟨b, hb, hba⟩ := hex
    exact ⟨a, List.mem_cons_self a t, b, List.mem_cons_of_mem a hb, fun hab => by
      rw [hab] at hba
      simp at hba⟩

lemma filterMap_value_eq_map {rows : List AggRow}
    (h : rows.any (fun r => r.value.isNone) = false) :
    rows.filterMap (fun r => r.value) = rows.map (fun r => r.value.getD 0) := by
  induction rows with
  | nil => rfl
  | cons r t ih =>
    rw [List.any_cons, Bool.or_eq_false_iff] at h
    obtain ⟨v, hv⟩ : ∃ v, r.value = some v := by
      cases hr : r.value
      · rw [hr] at h
        simp at h
      · exact ⟨_, rfl⟩
    rw [List.filterMap_cons, hv, List.map_cons, hv, ih h.2]
    rfl

lemma yvals_pairs (rows : List AggRow) :
    yvals (pairs rows) = rows.map (fun r => r.value.getD 0) := by
  simp [yvals, pairs, List.map_map, Function.comp_def]

lemma validCheck_two_distinct_y {rows : List AggRow} (h : validCheck rows = true) :
    ∃ a ∈ yvals (pairs rows), ∃ b ∈ yvals (pairs rows), a ≠ b := by
  rw [validCheck, Bool.not_eq_true', skipCheck] at h
  rw [Bool.or_eq_false_iff, Bool.or_eq_false_iff] at h
  obtain ⟨⟨htemp, hval⟩, huniq⟩ := h
  have hcount : 2 ≤ ((rows.filterMap (fun r => r.value)).dedup).length := by
    have := of_decide_eq_false huniq
    omega
  rw [filterMap_value_eq_map hval] at hcount
  rw [yvals_pairs]
  exact two_distinct_of_dedup hcount

lemma ssxm_two (a b c d : ℚ) : ssxm [(a, b), (c, d)] = (c - a) ^ 2 / 4 := by
  simp [ssxm, listMean, xvals, x_mean]
  ring

lemma ssym_two (a b c d : ℚ) : ssym [(a, b), (c, d)] = (d - b) ^ 2 / 4 := by
  simp [ssym, listMean, yvals, y_mean]
  ring

lemma ssxym_two (a b c d : ℚ) : ssxym [(a, b), (c, d)] = (c - a) * (d - b) / 4 := by
  simp [ssxym, listMean, xvals, yvals, x_mean, y_mean]
  ring

lemma clipLin_max_min (v : ℝ) : clipLin v = max (min v 1) (-1) := by
  rw [clipLin]
  split_ifs with h1 h2
  · rw [min_eq_right h1.le, max_eq_left (by norm_num)]
  · rw [min_eq_left (by linarith), max_eq_right h2.le]
  · push_neg at h1 h2
    rw [min_eq_left h1, max_eq_left h2]

lemma sgn_mul_sgn (u v : ℚ) (hu : u ≠ 0) (hv : v ≠ 0) : sgn u * sgn v = sgn (u * v) := by
  rcases lt_or_gt_of_ne hu with hu1 | hu1 <;> rcases lt_or_gt_of_ne hv with hv1 | hv1
  · have huv : 0 < u * v := mul_pos_of_neg_of_neg hu1 hv1
    rw [sgn, sgn, sgn, if_neg (asymm hu1), if_pos hu1, if_neg (asymm hv1), if_pos hv1,
      if_pos huv]
    norm_num
  · have huv : u * v < 0 := mul_neg_of_neg_of_pos hu1 hv1
    rw [sgn, sgn, sgn, if_neg (asymm hu1), if_pos hu1, if_pos hv1, if_neg (asymm huv),
      if_pos huv]
    norm_num
  · have huv : u * v < 0 := mul_neg_of_pos_of_neg hu1 hv1
    rw [sgn, sgn, sgn, if_pos hu1, if_neg (asymm hv1), if_pos hv1, if_neg (asymm huv),
      if_pos huv]
    norm_num
  · have huv : 0 < u * v := mul_pos hu1 hv1
    rw [sgn, sgn, sgn, if_pos hu1, if_pos hv1, if_pos huv]
    norm_num

lemma cast_sgn_div_abs (A : ℚ) (hA : A ≠ 0) : ((sgn A : ℚ) : ℝ) = (A : ℝ) / |(A : ℝ)| := by
  rcases lt_or_gt_of_ne hA with h | h
  · have hAr : (A : ℝ) < 0 := by exact_mod_cast h
    rw [sgn, if_neg (asymm h), if_pos h, abs_of_neg hAr]
    push_cast
    rw [div_neg, div_self (ne_of_lt hAr)]
  · have hAr : (0 : ℝ) < (A : ℝ) := by exact_mod_cast h
    rw [sgn, if_pos h, abs_of_pos hAr]
    push_cast
    rw [div_self (ne_of_gt hAr)]

lemma r_div_div (a b c : ℝ) (hc : c ≠ 0) : a / c / (b / c) = a / b := by
  by_cases hb : b = 0
  · simp [hb]
  · field_simp

lemma clipLin_div_abs (w : ℝ) (hw : w ≠ 0) : clipLin (w / |w|) = w / |w| := by
  rcases lt_or_gt_of_ne hw with h | h
  · rw [abs_of_neg h, div_neg, div_self (ne_of_lt h), clipLin]
    norm_num
  · rw [abs_of_pos h, div_self (ne_of_gt h), clipLin]
    norm_num

lemma rlin_two (x0 y0 x1 y1 : ℚ) (hdx : x1 - x0 ≠ 0) (hdy : y1 - y0 ≠ 0) :
    r_lin [(x0, y0), (x1, y1)] = ((sgn (x1 - x0) * sgn (y1 - y0) : ℚ) : ℝ) := by
  have hguard : ¬(ssxm [(x0, y0), (x1, y1)] = 0 ∨ ssym [(x0, y0), (x1, y1)] = 0) := by
    rintro (h | h)
    · rw [ssxm_two] at h
      exact hdx (by nlinarith [sq_nonneg (x1 - x0)])
    · rw [ssym_two] at h
      exact hdy (by nlinarith [sq_nonneg (y1 - y0)])
  rw [r_lin, if_neg hguard, ssxm_two, ssym_two, ssxym_two,
    sgn_mul_sgn _ _ hdx hdy, cast_sgn_div_abs _ (mul_ne_zero hdx hdy)]
  push_cast
  set u : ℝ := (x1 : ℝ) - (x0 : ℝ) with hudef
  set v : ℝ := (y1 : ℝ) - (y0 : ℝ) with hvdef
  have hu : u ≠ 0 := by
    rw [hudef]
    exact_mod_cast hdx
  have hv : v ≠ 0 := by
    rw [hvdef]
    exact_mod_cast hdy
  have hsqrt : Real.sqrt (u ^ 2 / 4 * (v ^ 2 / 4)) = |u * v| / 4 := by
    rw [show u ^ 2 / 4 * (v ^ 2 / 4) = (u * v / 4) ^ 2 by ring, Real.sqrt_sq_eq_abs,
      abs_div]
    norm_num
  rw [hsqrt, r_div_div _ _ _ (by norm_num)]
  exact clipLin_div_abs _ (mul_ne_zero hu hv)

lemma s_xx_pos_of_not_allEqual (s : List (ℚ × ℚ)) (h : allEqualB (xvals s) = false) :
    0 < s_xx s := by
  obtain ⟨a, ha, b, hb, hab⟩ := two_distinct_of_not_allEqual h
  rw [s_xx]
  exact sq_dev_sum_pos (x_mean s) ha hb hab

lemma allEqualB_false_of_two_distinct {l : List ℚ} (h : ∃ a ∈ l, ∃ b ∈ l, a ≠ b) :
    allEqualB l = false := by
  obtain ⟨a, ha, b, hb, hab⟩ := h
  cases hq : allEqualB l
  · rfl
  · exact absurd ((allEqualB_forall hq a ha).trans (allEqualB_forall hq b hb).symm) hab

lemma pearson_arg_eq_rlin_arg (s : List (ℚ × ℚ)) (hn : s.length ≠ 0)
    (hxx : 0 < s_xx s) (hyy : 0 < s_yy s) :
    (dotProd s : ℝ) / (normxm s * normym s) =
      (ssxym s : ℝ) / Real.sqrt ((ssxm s : ℝ) * (ssym s : ℝ)) := by
  have hnR : (0 : ℝ) < (s.length : ℝ) := by
    have := Nat.pos_of_ne_zero hn
    exact_mod_cast this
  have hxxR : (0 : ℝ) < (s_xx s : ℝ) := by exact_mod_cast hxx
  have hyyR : (0 : ℝ) < (s_yy s : ℝ) := by exact_mod_cast hyy
  rw [ssxym_eq_div, ssxm_eq_div, ssym_eq_div]
  push_cast
  have hsq : Real.sqrt ((s_xx s : ℝ) / (s.length : ℝ) * ((s_yy s : ℝ) / (s.length : ℝ))) =
      Real.sqrt ((s_xx s : ℝ) * (s_yy s : ℝ)) / (s.length : ℝ) := by
    rw [show (s_xx s : ℝ) / (s.length : ℝ) * ((s_yy s : ℝ) / (s.length : ℝ)) =
        (s_xx s : ℝ) * (s_yy s : ℝ) / ((s.length : ℝ)) ^ 2 by ring,
      Real.sqrt_div (by positivity), Real.sqrt_sq hnR.le]
  rw [hsq, r_div_div _ _ _ (ne_of_gt hnR), normxm, normym,
    ← Real.sqrt_mul hxxR.le]

/-- C2: for every `(metric, region)` series whose summary record is written
(it passes the validity checks and `linregress` returns), the `R_square`
value equals the square of the Pearson correlation coefficient computed by
`pearsonr` for that series. -/
theorem r_squared_eq_pearson_sq (data : List AggRow) (m reg : String)
    (hemit : summaryEmitted (seriesFor data m reg) = true) :
    ∃ u : ℝ, pearson_r (pairs (seriesFor data m reg)) = some u ∧
      r_squared (pairs (seriesFor data m reg)) = u ^ 2 := by
  obtain ⟨hlenOK, hvalid, hnoraise⟩ := summaryEmitted_parts hemit
  set s := pairs (seriesFor data m reg) with hs
  have hlen2 : 2 ≤ s.length := by
    rw [hs, pairs_length]
    exact of_decide_eq_true hlenOK
  have hxf : allEqualB (xvals s) = false := by
    rw [linregressRaises] at hnoraise
    have hdec : decide (1 < s.length) = true := decide_eq_true (by omega)
    cases hxe : allEqualB (xvals s)
    · rfl
    · rw [hxe, hdec] at hnoraise
      simp at hnoraise
  have hydist := validCheck_two_distinct_y hvalid
  have hyf : allEqualB (yvals s) = false := allEqualB_false_of_two_distinct hydist
  refine ⟨r_lin s, ?_, rfl⟩
  rw [pearson_r, if_neg (by omega : ¬s.length < 2)]
  rw [hxf, hyf]
  simp only [Bool.or_self, Bool.false_eq_true, if_false]
  by_cases h2 : s.length = 2
  · rw [if_pos h2]
    obtain ⟨p, q, hpq⟩ := List.length_eq_two.mp h2
    obtain ⟨px, py⟩ := p
    obtain ⟨qx, qy⟩ := q
    have hdx : qx - px ≠ 0 := by
      rw [hpq] at hxf
      simp [allEqualB, xvals] at hxf
      exact sub_ne_zero.mpr hxf
    have hdy : qy - py ≠ 0 := by
      rw [hpq] at hyf
      simp [allEqualB, yvals] at hyf
      exact sub_ne_zero.mpr hyf
    rw [hpq]
    have hr2 := rlin_two px py qx qy hdx hdy
    rw [hr2]
    simp [xvals, yvals]
  · rw [if_neg h2]
    have hxx := s_xx_pos_of_not_allEqual s hxf
    have hyy : 0 < s_yy s := by
      obtain ⟨a, ha, b, hb, hab⟩ := hydist
      rw [s_yy]
      exact sq_dev_sum_pos (y_mean s) ha hb hab
    have hnq : (0 : ℚ) < (s.length : ℚ) := by
      have : 0 < s.length := by omega
      exact_mod_cast this
    have hguard : ¬(ssxm s = 0 ∨ ssym s = 0) := by
      rintro (h | h)
      · rw [ssxm_eq_div] at h
        exact absurd h (ne_of_gt (div_pos hxx hnq))
      · rw [ssym_eq_div] at h
        exact absurd h (ne_of_gt (div_pos hyy hnq))
    rw [r_lin, if_neg hguard, clipLin_max_min,
      pearson_arg_eq_rlin_arg s (by omega) hxx hyy]


/-- C2 witness input: a valid two-point series with distinct temperatures and
distinct values. -/
def rowsW2 : List AggRow :=
  [⟨⟨"C01", "T1", "Amygdala", some 6⟩, some 12⟩, ⟨⟨"C02", "T1", "Amygdala", some 8⟩, some 29⟩]

/-- C2 witness: the theorem applied at the concrete series `rowsW2`. -/
theorem r_squared_eq_pearson_sq_witness :
    summaryEmitted (seriesFor rowsW2 "T1" "Amygdala") = true ∧
    (∃ u : ℝ, pearson_r (pairs (seriesFor rowsW2 "T1" "Amygdala")) = some u ∧
      r_squared (pairs (seriesFor rowsW2 "T1" "Amygdala")) = u ^ 2) :=
  ⟨by decide, r_squared_eq_pearson_sq rowsW2 "T1" "Amygdala" (by decide)⟩

end TempCorr
